import Mathlib

/-!
Shallow embedding of the background job-queue orchestrator of the
markdown_load browser extension (src/extension/service_worker.js) together
with proofs of the behavioural properties claimed for it.

The service worker keeps a persisted state `{queue, ready}` in
chrome.storage, mutated by the message handlers `enqueueItem`, `retryItem`,
`removeQueueItem`, `downloadReadyItem`, `removeReadyItem`, and drained by the
re-entrant-guarded loop `processQueue`.  Every definition below mirrors the
corresponding JavaScript function; network and browser effects (fetch
results, chrome.downloads outcomes, timestamps, generated ids) are passed in
as explicit parameters, and the persisted writes performed by an operation
are made explicit where a claim is about them.
-/

namespace MarkdownLoad

/-- Replace the first element satisfying `p` by its image under `f`; the JS
idiom `const x = arr.find(p); mutate x in place` acting on an array. -/
def updateFirst (p : α → Bool) (f : α → α) : List α → List α
  | [] => []
  | x :: xs => if p x then f x :: xs else x :: updateFirst p f xs

/-- Drop the first element satisfying `p`; the JS idiom
`arr.splice(arr.findIndex(p), 1)`. -/
def removeFirst (p : α → Bool) : List α → List α
  | [] => []
  | x :: xs => if p x then xs else x :: removeFirst p xs

/-- Status values stored in a queue item: 'pending' | 'processing' | 'error'
(terminal success removes the item from the queue instead). -/
inductive Status where
  | pending
  | processing
  | error
deriving DecidableEq, Repr

/-- A queue entry as persisted (service_worker.js enqueueItem, and the
persisted state shape of the spec).  The code itself only ever writes
id/url/filename/status/error/addedAt, but chrome.storage is schemaless:
`jobId` and `jobStatus` fields named in the persisted-state shape round-trip
through every read-modify-write untouched, so they are modelled as optional
fields that the operations carry along. -/
structure QueueItem where
  id : String
  url : String
  filename : Option String
  status : Status
  error : Option String
  jobId : Option String
  jobStatus : Option String
  addedAt : Nat
deriving DecidableEq, Repr

/-- A completed artifact awaiting download (pushed by processQueue's success
path). -/
structure ReadyItem where
  id : String
  url : String
  filename : Option String
  markdown : String
  completedAt : Nat
deriving DecidableEq, Repr

/-- The persisted document under the single storage key:
`{ queue: [...], ready: [...] }`. -/
structure St where
  queue : List QueueItem
  ready : List ReadyItem
deriving DecidableEq, Repr

/-- JS truthiness test `!url` on an optional string: true when the field is
absent or the empty string. -/
def jsFalsy : Option String → Bool
  | none => true
  | some s => decide (s = "")

/-- The queue entry pushed by enqueueItem. -/
def mkQueueItem (id url : String) (filename : Option String) (now : Nat) :
    QueueItem :=
  { id := id, url := url, filename := filename, status := .pending,
    error := none, jobId := none, jobStatus := none, addedAt := now }

/-- Result of a successful enqueueItem call: the persisted state, the id
returned to the caller, and whether processQueue() was triggered. -/
structure EnqueueOk where
  state : St
  id : String
  drainTriggered : Bool
deriving DecidableEq, Repr

/-- enqueueItem (service_worker.js): throw 'Missing URL' on a falsy url,
otherwise append a pending item carrying a freshly created id and kick the
drain loop.  The id produced by createId and the Date.now timestamp are
injected as parameters. -/
def enqueueItem (s : St) (url : Option String) (filename : Option String)
    (freshId : String) (now : Nat) : Except String EnqueueOk :=
  match url with
  | none => .error "Missing URL"
  | some u =>
    if u = "" then .error "Missing URL"
    else
      .ok { state := { s with queue := s.queue ++ [mkQueueItem freshId u filename now] },
            id := freshId, drainTriggered := true }

/-- Result of a successful retryItem call. -/
structure RetryOk where
  state : St
  drainTriggered : Bool
deriving DecidableEq, Repr

/-- The in-place mutation retryItem performs on the found entry:
`item.status = 'pending'; delete item.error;`. -/
def retryReset (it : QueueItem) : QueueItem :=
  { it with status := .pending, error := none }

/-- retryItem (service_worker.js): find the queue entry by id (error if
absent), set its status to 'pending', delete its error field, persist, and
trigger the drain loop.  Note the code touches only `status` and `error`. -/
def retryItem (s : St) (id : String) : Except String RetryOk :=
  match s.queue.find? (fun e => decide (e.id = id)) with
  | none => .error "Queue item not found"
  | some _ =>
    .ok { state := { s with
            queue := updateFirst (fun e => decide (e.id = id)) retryReset s.queue },
          drainTriggered := true }

/-- removeQueueItem (service_worker.js): splice out the first entry with the
given id, error 'Queue item not found' if there is none. -/
def removeQueueItem (s : St) (id : String) : Except String St :=
  match s.queue.find? (fun e => decide (e.id = id)) with
  | none => .error "Queue item not found"
  | some _ => .ok { s with queue := removeFirst (fun e => decide (e.id = id)) s.queue }

/-- Result of a successful downloadReadyItem call: the state written after
the download started, the artifact content and filename handed to
chrome.downloads.download, and the download id it reported. -/
structure DeliverOk where
  state : St
  content : String
  filename : Option String
  downloadId : Nat
deriving DecidableEq, Repr

/-- downloadReadyItem (service_worker.js): look up the ready entry by id
(error 'Download not found' if absent), start a browser download of its
markdown under its filename, and only after the download call succeeds
splice the entry out of the ready list and persist.  The outcome of
chrome.downloads.download is injected as `dl`; the first component of the
result lists the setState writes the call performed, so a failed download
provably leaves the persisted state untouched. -/
def downloadReadyItem (s : St) (id : String) (dl : Except String Nat) :
    List St × Except String DeliverOk :=
  match s.ready.find? (fun e => decide (e.id = id)) with
  | none => ([], .error "Download not found")
  | some entry =>
    match dl with
    | .error msg => ([], .error msg)
    | .ok did =>
      let s' : St := { s with ready := removeFirst (fun e => decide (e.id = id)) s.ready }
      ([s'], .ok { state := s', content := entry.markdown,
                   filename := entry.filename, downloadId := did })

/-- removeReadyItem (service_worker.js): discard a ready entry without
delivering it, error 'Ready item not found' if absent. -/
def removeReadyItem (s : St) (id : String) : Except String St :=
  match s.ready.find? (fun e => decide (e.id = id)) with
  | none => .error "Ready item not found"
  | some _ => .ok { s with ready := removeFirst (fun e => decide (e.id = id)) s.ready }

/-- The pick step at the top of processQueue's while loop: findIndex of the
first 'pending' entry; if none, the loop breaks.  Otherwise that entry is
mutated in place to status 'processing' with its error field cleared, the
state is persisted, and the mutated item object is captured for the fetch. -/
def markProcessing (q : QueueItem) : QueueItem :=
  { q with status := .processing, error := none }

/-- The state as persisted by the pick step: the first pending entry marked
'processing' in place. -/
def pickMark (s : St) : St :=
  { s with queue := updateFirst (fun x => decide (x.status = .pending)) markProcessing s.queue }

/-- pickPending returns the captured (already mutated) item together with
the state as persisted by the pick step, or none when no entry is pending. -/
def pickPending (s : St) : Option (QueueItem × St) :=
  match s.queue.find? (fun q => decide (q.status = .pending)) with
  | none => none
  | some q => some (markProcessing q, pickMark s)

/-- Success path after fetchMarkdownForItem resolves (processQueue): re-read
the state, look the item up by id, and only if it is still there splice it
out of the queue and push a ready entry built from the captured item and the
fetched markdown.  When the item is gone the state is left untouched. -/
def finishSuccess (s : St) (it : QueueItem) (md : String) (now : Nat) : St :=
  match s.queue.find? (fun q => decide (q.id = it.id)) with
  | none => s
  | some _ =>
    { queue := removeFirst (fun q => decide (q.id = it.id)) s.queue,
      ready := s.ready ++ [{ id := it.id, url := it.url, filename := it.filename,
                             markdown := md, completedAt := now }] }

/-- The in-place mutation of the failure path: status 'error' with the
message `error.message || 'Conversion failed'`. -/
def markError (msg : String) (q : QueueItem) : QueueItem :=
  { q with status := .error, error := some (if msg = "" then "Conversion failed" else msg) }

/-- Failure path of the same try/catch: re-read the state, look the item up
by id, and only if it is still there set its status to 'error' with the
recorded failure message. -/
def finishFailure (s : St) (it : QueueItem) (msg : String) : St :=
  match s.queue.find? (fun q => decide (q.id = it.id)) with
  | none => s
  | some _ =>
    { s with queue := updateFirst (fun q => decide (q.id = it.id)) (markError msg) s.queue }

/-- Completion of one dispatched conversion task, combining the two arms of
processQueue's try/catch around fetchMarkdownForItem. -/
def completeFetch (s : St) (it : QueueItem) (res : Except String String)
    (now : Nat) : St :=
  match res with
  | .ok md => finishSuccess s it md now
  | .error msg => finishFailure s it msg

/-- Where one processQueue invocation is suspended.  JavaScript runs each
async function synchronously up to its next await, so the scheduling quanta
are the synchronous segments between suspension points: the guard
check-and-set at entry is atomic with the call, `atPick` is suspended at the
loop-head storage round-trip, `atFetch` at the awaited conversion call, and
`atFinally` at the storage read inside the finally block (which runs after
the guard has already been cleared).  The loop-head read-modify-write is
kept as one quantum: the guard admits at most one invocation into the loop,
and every other quantum in this model only reads the store, so no writer can
interleave inside it. -/
inductive Task where
  | atPick
  | atFetch (it : QueueItem)
  | atFinally
  | retBounced
  | retDone
deriving DecidableEq, Repr

/-- Whole-process configuration: the persisted store, the module-level
`processingQueue` guard flag, the suspended invocations, and the log of item
ids handed to fetchMarkdownForItem (one entry per dispatched submission). -/
structure Sys where
  store : St
  flag : Bool
  tasks : List Task
  submitted : List String
deriving DecidableEq, Repr

/-- External collaborators of the drain loop: the conversion endpoint's
response for a given item id, and the Date.now value used for completedAt. -/
structure Env where
  fetchResult : String → Except String String
  now : Nat

/-- A scheduling action: a fresh call to processQueue(), or the host resuming
suspended invocation number `i` for one quantum. -/
inductive Act where
  | invoke
  | run (i : Nat)
deriving DecidableEq, Repr

/-- Entry of processQueue (lines 163-167): `if (processingQueue) return;
processingQueue = true;` runs synchronously at the call, so it is one atomic
action: a call under a set flag returns immediately, otherwise the flag is
taken and the invocation suspends at the loop head. -/
def invokeDrain (sys : Sys) : Sys :=
  if sys.flag then { sys with tasks := sys.tasks ++ [.retBounced] }
  else { sys with flag := true, tasks := sys.tasks ++ [.atPick] }

/-- Resume suspended invocation `i` for one quantum.  `atPick` performs the
loop-head round-trip: no pending entry breaks out of the loop and (still
synchronously) clears the guard in the finally block; a pending entry is
marked 'processing', persisted, and its conversion is dispatched.  `atFetch`
applies the try/catch completion for the environment's response.
`atFinally` re-reads the store and, if a pending entry appeared meanwhile,
calls processQueue() again before returning. -/
def runTask (env : Env) (sys : Sys) (i : Nat) : Sys :=
  match sys.tasks[i]? with
  | none => sys
  | some t =>
    match t with
    | .atPick =>
      match pickPending sys.store with
      | none => { sys with flag := false, tasks := sys.tasks.set i .atFinally }
      | some (it, s') =>
        { sys with store := s', tasks := sys.tasks.set i (.atFetch it),
                   submitted := sys.submitted ++ [it.id] }
    | .atFetch it =>
      { sys with store := completeFetch sys.store it (env.fetchResult it.id) env.now,
                 tasks := sys.tasks.set i .atPick }
    | .atFinally =>
      if sys.store.queue.any (fun q => decide (q.status = .pending)) then
        invokeDrain { sys with tasks := sys.tasks.set i .retDone }
      else { sys with tasks := sys.tasks.set i .retDone }
    | .retBounced => sys
    | .retDone => sys

/-- One scheduling step. -/
def stepSys (env : Env) (sys : Sys) : Act → Sys
  | .invoke => invokeDrain sys
  | .run i => runTask env sys i

/-- Execution of a whole schedule. -/
def execSys (env : Env) (sys : Sys) (acts : List Act) : Sys :=
  acts.foldl (stepSys env) sys

/-- Tasks currently inside the while loop body. -/
def inLoopTask : Task → Bool
  | .atPick => true
  | .atFetch _ => true
  | _ => false

/-- Number of invocations currently inside the loop body. -/
def activeCount (sys : Sys) : Nat :=
  (sys.tasks.filter inLoopTask).length

/-- Configuration at a fresh process start: the persisted store survived,
the module-level guard is reinitialised to false, and no invocation or
dispatched conversion exists locally. -/
def initSys (st : St) : Sys :=
  { store := st, flag := false, tasks := [], submitted := [] }

/-- An HTTP response as the error-extraction code observes it: the status
code, the raw body text, and the outcome of attempting response.json() —
`none` when the body is not valid JSON (json() rejects), `some d` when
parsing succeeded and `d` is the value of its detail field (`none` when the
field is absent). -/
structure HttpResponse where
  status : Nat
  text : String
  jsonDetail : Option (Option String)
deriving DecidableEq, Repr

/-- response.ok of the Fetch API: status in the 200-299 range. -/
def HttpResponse.isOk (r : HttpResponse) : Bool :=
  decide (200 ≤ r.status ∧ r.status < 300)

/-- The default error message `HTTP <status>`. -/
def httpMsg (status : Nat) : String :=
  "HTTP " ++ toString status

/-- buildError (service_worker.js lines 261-276): start from `HTTP <status>`;
if a clone of the body parses as JSON and its detail field is truthy, use
it; only when JSON parsing throws, fall back to the raw body text provided
it is non-empty. -/
def buildError (r : HttpResponse) : String :=
  match r.jsonDetail with
  | some (some d) => if d = "" then httpMsg r.status else d
  | some none => httpMsg r.status
  | none => if r.text = "" then httpMsg r.status else r.text

/-- Modelled from the spec: the preference order exactly as the claim words
it — the structured detail field of a JSON body if present, otherwise the
raw response text if non-empty, otherwise `HTTP <status>`.  Stated only to
be compared against buildError. -/
def claimErrorDetail (r : HttpResponse) : String :=
  match r.jsonDetail with
  | some (some d) => d
  | _ => if r.text = "" then httpMsg r.status else r.text

/-- Observable network-and-timer trace of one conversion call: how many
requests were issued to the conversion endpoint and which timed backoff
sleeps were performed. -/
structure NetTrace where
  posts : Nat
  waits : List Nat
deriving DecidableEq, Repr

/-- fetchMarkdown (service_worker.js lines 237-257): gather cookies, issue
exactly one POST to the conversion endpoint, and either return the response
text or throw buildError(response).  There is no retry and no timed wait of
any kind. -/
def fetchMarkdownRun (r : HttpResponse) : NetTrace × Except String String :=
  ({ posts := 1, waits := [] },
   if r.isOk then .ok r.text else .error (buildError r))

/-- Ids across the queue list. -/
def QueueIds (s : St) : List String :=
  s.queue.map (·.id)

/-- Ids across the union of the queue and ready lists. -/
def allIds (s : St) : List String :=
  s.queue.map (·.id) ++ s.ready.map (·.id)

/-- The id-uniqueness invariant of the persisted state. -/
def UniqueIds (s : St) : Prop :=
  (allIds s).Nodup

/-- Inductive invariant of the drain machinery: the guard flag counts the
invocations inside the loop body, queue ids are distinct, no conversion is
dispatched twice, a dispatched id is never 'pending' again, and every
suspended conversion belongs to a dispatched id. -/
structure Inv (sys : Sys) : Prop where
  count_flag : activeCount sys = (if sys.flag then 1 else 0)
  queue_nodup : (QueueIds sys.store).Nodup
  sub_nodup : sys.submitted.Nodup
  sub_not_pending : ∀ id ∈ sys.submitted, ∀ q ∈ sys.store.queue,
    q.id = id → q.status ≠ .pending
  fetch_sub : ∀ it : QueueItem, Task.atFetch it ∈ sys.tasks → it.id ∈ sys.submitted

/-- One enqueue request of a call sequence, with the id the generator
produced for it and its Date.now timestamp. -/
structure EnqueueReq where
  url : String
  filename : Option String
  freshId : String
  now : Nat
deriving DecidableEq, Repr

/-- A sequence of enqueueItem calls, threading the state and collecting the
ids returned by the successful calls. -/
def enqueueSeq : St → List EnqueueReq → St × List String
  | s, [] => (s, [])
  | s, r :: rest =>
    match enqueueItem s (some r.url) r.filename r.freshId r.now with
    | .error _ => enqueueSeq s rest
    | .ok out =>
      let p := enqueueSeq out.state rest
      (p.1, out.id :: p.2)

/-- Fixture: a queue item persisted mid-processing with a recorded job
association, as left behind by a process that died between submission and
completion. -/
def itFixA : QueueItem :=
  { id := "a", url := "https://example.com/a", filename := some "a.md",
    status := .processing, error := none, jobId := some "jx",
    jobStatus := some "processing", addedAt := 0 }

/-- Fixture: the persisted store holding only `itFixA`. -/
def stFixA : St := { queue := [itFixA], ready := [] }

/-- Fixture: a pending item awaiting submission. -/
def itFixB : QueueItem :=
  { id := "b", url := "https://example.com/b", filename := none,
    status := .pending, error := none, jobId := none, jobStatus := none,
    addedAt := 1 }

/-- Fixture: the persisted store holding only `itFixB`. -/
def stFixB : St := { queue := [itFixB], ready := [] }

/-- Fixture: a ready item awaiting delivery. -/
def rdFix : ReadyItem :=
  { id := "r", url := "https://example.com/r", filename := some "r.md",
    markdown := "# Hello", completedAt := 7 }

/-- Fixture: the persisted store holding only `rdFix`. -/
def stFixR : St := { queue := [], ready := [rdFix] }

/-- Fixture: an errored item carrying a recorded job association. -/
def itFixJ : QueueItem :=
  { id := "j", url := "https://example.com/j", filename := none,
    status := .error, error := some "boom", jobId := some "j1",
    jobStatus := some "queued", addedAt := 2 }

/-- Fixture: the persisted store holding only `itFixJ`. -/
def stFixJ : St := { queue := [itFixJ], ready := [] }

/-- Fixture environment: every conversion succeeds with a fixed artifact. -/
def envFix : Env := { fetchResult := fun _ => .ok "# Hello", now := 9 }

/-- Fixture: a 500 response whose body is valid JSON but has no detail
field. -/
def respNoDetail : HttpResponse :=
  { status := 500, text := "\x7b\"message\": \"boom\"\x7d", jsonDetail := some none }

/-- Fixture: a 500 response whose body is not JSON — a transient (non-404)
submission failure. -/
def respTransient : HttpResponse :=
  { status := 500, text := "upstream busy", jsonDetail := none }

/-- Fixture: a 422 response carrying a structured detail field. -/
def respDetail : HttpResponse :=
  { status := 422, text := "\x7b\"detail\": \"bad url\"\x7d",
    jsonDetail := some (some "bad url") }

lemma getElem?_mem_list {l : List α} {i : Nat} {a : α} (h : l[i]? = some a) :
    a ∈ l := by
  induction l generalizing i with
  | nil => simp at h
  | cons x xs ih =>
    cases i with
    | zero => simp at h; simp [h]
    | succ j =>
      simp only [List.getElem?_cons_succ] at h
      exact List.mem_cons_of_mem _ (ih h)

lemma length_filter_set {l : List α} {i : Nat} {a : α} (h : l[i]? = some a)
    (b : α) (p : α → Bool) :
    ((l.set i b).filter p).length + (if p a then 1 else 0)
      = (l.filter p).length + (if p b then 1 else 0) := by
  induction l generalizing i with
  | nil => simp at h
  | cons x xs ih =>
    cases i with
    | zero =>
      simp only [List.getElem?_cons_zero, Option.some.injEq] at h
      simp only [List.set, h]
      by_cases hb : p b <;> by_cases ha : p a <;>
        simp [List.filter_cons, hb, ha]
    | succ j =>
      simp only [List.getElem?_cons_succ] at h
      have hih := ih h
      simp only [List.set]
      by_cases hx : p x <;> simp [List.filter_cons, hx] <;> omega

lemma updateFirst_map_of_fix {p : α → Bool} {f : α → α} {g : α → β}
    (hfix : ∀ a, p a = true → g (f a) = g a) (l : List α) :
    (updateFirst p f l).map g = l.map g := by
  induction l with
  | nil => rfl
  | cons x xs ih =>
    by_cases hx : p x
    · simp [updateFirst, hx, hfix x hx]
    · simp [updateFirst, hx, ih]

lemma mem_updateFirst_of_neg {p : α → Bool} {f : α → α} {a : α} {l : List α}
    (hmem : a ∈ l) (hp : p a = false) : a ∈ updateFirst p f l := by
  induction l with
  | nil => simp at hmem
  | cons x xs ih =>
    rcases List.mem_cons.mp hmem with rfl | hxs
    · simp [updateFirst, hp]
    · by_cases hx : p x
      · simp [updateFirst, hx, List.mem_cons_of_mem _ hxs]
      · simp [updateFirst, hx]
        exact Or.inr (ih hxs)

lemma mem_updateFirst {p : α → Bool} {f : α → α} {b : α} {l : List α}
    (hmem : b ∈ updateFirst p f l) :
    b ∈ l ∨ ∃ a, a ∈ l ∧ p a = true ∧ b = f a := by
  induction l with
  | nil => simp [updateFirst] at hmem
  | cons x xs ih =>
    by_cases hx : p x
    · simp only [updateFirst, hx, if_true] at hmem
      rcases List.mem_cons.mp hmem with rfl | hxs
      · exact Or.inr ⟨x, List.mem_cons_self _ _, hx, rfl⟩
      · exact Or.inl (List.mem_cons_of_mem _ hxs)
    · simp only [updateFirst, hx, if_false] at hmem
      rcases List.mem_cons.mp hmem with rfl | hxs
      · exact Or.inl (List.mem_cons_self _ _)
      · rcases ih hxs with h | ⟨a, ha, hpa, rfl⟩
        · exact Or.inl (List.mem_cons_of_mem _ h)
        · exact Or.inr ⟨a, List.mem_cons_of_mem _ ha, hpa, rfl⟩

lemma updateFirst_append_split {p : α → Bool} {f : α → α} {l₁ l₂ : List α}
    {a : α} (h₁ : ∀ x ∈ l₁, p x = false) (ha : p a = true) :
    updateFirst p f (l₁ ++ a :: l₂) = l₁ ++ f a :: l₂ := by
  induction l₁ with
  | nil => simp [updateFirst, ha]
  | cons x xs ih =>
    have hx : p x = false := h₁ x (List.mem_cons_self _ _)
    have ih' := ih (fun y hy => h₁ y (List.mem_cons_of_mem _ hy))
    simp [updateFirst, hx, ih']

lemma removeFirst_sublist {p : α → Bool} (l : List α) :
    List.Sublist (removeFirst p l) l := by
  induction l with
  | nil => simp [removeFirst]
  | cons x xs ih =>
    by_cases hx : p x
    · simp only [removeFirst, hx, if_true]
      exact List.sublist_cons_of_sublist x (List.Sublist.refl xs)
    · simp only [removeFirst, hx]
      simp only [Bool.false_eq_true, if_false]
      exact List.Sublist.cons₂ x ih

lemma removeFirst_append_split {p : α → Bool} {l₁ l₂ : List α} {a : α}
    (h₁ : ∀ x ∈ l₁, p x = false) (ha : p a = true) :
    removeFirst p (l₁ ++ a :: l₂) = l₁ ++ l₂ := by
  induction l₁ with
  | nil => simp [removeFirst, ha]
  | cons x xs ih =>
    have hx : p x = false := h₁ x (List.mem_cons_self _ _)
    have ih' := ih (fun y hy => h₁ y (List.mem_cons_of_mem _ hy))
    simp [removeFirst, hx, ih']

lemma mem_removeFirst_of_neg {p : α → Bool} {a : α} {l : List α}
    (hmem : a ∈ l) (hp : p a = false) : a ∈ removeFirst p l := by
  induction l with
  | nil => simp at hmem
  | cons x xs ih =>
    rcases List.mem_cons.mp hmem with rfl | hxs
    · simp [removeFirst, hp]
    · by_cases hx : p x
      · simpa [removeFirst, hx] using hxs
      · simp only [removeFirst, hx]
        simp only [Bool.false_eq_true, if_false, List.mem_cons]
        exact Or.inr (ih hxs)

lemma removeFirst_removes_key {g : α → β} {c : β} [DecidableEq β] {l : List α}
    (h : (l.map g).Nodup) :
    ∀ y ∈ removeFirst (fun a => decide (g a = c)) l, g y ≠ c := by
  induction l with
  | nil => simp [removeFirst]
  | cons x xs ih =>
    simp only [List.map_cons, List.nodup_cons] at h
    intro y hy hyc
    by_cases hx : g x = c
    · have hyxs : y ∈ xs := by simpa [removeFirst, hx] using hy
      refine h.1 ?_
      rw [hx, ← hyc]
      exact List.mem_map_of_mem g hyxs
    · have hy' : y = x ∨ y ∈ removeFirst (fun a => decide (g a = c)) xs := by
        simpa [removeFirst, hx] using hy
      rcases hy' with rfl | hy'
      · exact hx hyc
      · exact ih h.2 y hy' hyc

lemma find?_eq_of_mem_nodup {g : α → β} [DecidableEq β] {l : List α} {b : α}
    (h : (l.map g).Nodup) (hb : b ∈ l) :
    l.find? (fun a => decide (g a = g b)) = some b := by
  induction l with
  | nil => simp at hb
  | cons x xs ih =>
    simp only [List.map_cons, List.nodup_cons] at h
    rcases List.mem_cons.mp hb with rfl | hxs
    · exact List.find?_cons_of_pos _ (by simp)
    · have hgx : g x ≠ g b := by
        intro he
        refine h.1 ?_
        rw [he]
        exact List.mem_map_of_mem g hxs
      rw [List.find?_cons_of_neg _ (by simp [hgx])]
      exact ih h.2 hxs

lemma find?_split {p : α → Bool} {l : List α} {a : α}
    (h : l.find? p = some a) :
    ∃ l₁ l₂, l = l₁ ++ a :: l₂ ∧ (∀ x ∈ l₁, p x = false) ∧ p a = true := by
  induction l with
  | nil => simp [List.find?] at h
  | cons x xs ih =>
    by_cases hx : p x
    · rw [List.find?_cons_of_pos _ hx] at h
      refine ⟨[], xs, ?_, by simp, ?_⟩
      · simp_all
      · cases h; exact hx
    · rw [List.find?_cons_of_neg _ hx] at h
      rcases ih h with ⟨l₁, l₂, rfl, h₁, ha⟩
      refine ⟨x :: l₁, l₂, by simp, ?_, ha⟩
      intro y hy
      rcases List.mem_cons.mp hy with rfl | hy
      · simpa using hx
      · exact h₁ y hy

lemma find?_append_of_prefix_neg {p : α → Bool} {l₁ l₂ : List α} {a : α}
    (h₁ : ∀ x ∈ l₁, p x = false) (ha : p a = true) :
    (l₁ ++ a :: l₂).find? p = some a := by
  induction l₁ with
  | nil => simpa using List.find?_cons_of_pos _ ha
  | cons x xs ih =>
    have hx : p x = false := h₁ x (List.mem_cons_self _ _)
    rw [List.cons_append, List.find?_cons_of_neg _ (by simp [hx])]
    exact ih (fun y hy => h₁ y (List.mem_cons_of_mem _ hy))

/-- C3: enqueueItem rejects a missing target URL with the validation error
'Missing URL' and creates nothing; on a present target URL it appends a
pending queue item carrying the freshly created id, triggers the drain
loop, and returns that id.  A missing URL is the JS-falsy check `!url` of
the source, which the spec words as validating a non-empty URL. -/
theorem C3_enqueue_validates (s : St) (url filename : Option String)
    (freshId : String) (now : Nat) :
    (jsFalsy url = true →
      enqueueItem s url filename freshId now = .error "Missing URL") ∧
    (jsFalsy url = false →
      enqueueItem s url filename freshId now =
        .ok { state := { s with
                queue := s.queue ++ [mkQueueItem freshId (url.getD "") filename now] },
              id := freshId, drainTriggered := true }) := by
  constructor
  · intro h
    cases url with
    | none => rfl
    | some u =>
      simp only [jsFalsy, decide_eq_true_eq] at h
      simp [enqueueItem, h]
  · intro h
    cases url with
    | none => simp [jsFalsy] at h
    | some u =>
      simp only [jsFalsy, decide_eq_false_iff_not] at h
      simp [enqueueItem, h]

/-- C3 witness: the validation failure and the success path at concrete
inputs. -/
theorem C3_enqueue_validates_witness :
    enqueueItem stFixR none none "n1" 3 = .error "Missing URL" ∧
    enqueueItem stFixR (some "https://example.com/x") none "n1" 3 =
      .ok { state := { stFixR with
              queue := stFixR.queue ++ [mkQueueItem "n1" "https://example.com/x" none 3] },
            id := "n1", drainTriggered := true } :=
  ⟨(C3_enqueue_validates stFixR none none "n1" 3).1 (by decide),
   (C3_enqueue_validates stFixR (some "https://example.com/x") none "n1" 3).2 (by decide)⟩

/-- C4: delivering a ready item hands exactly its artifact content and
filename to the browser download, removes exactly that entry from the ready
list, and a second delivery of the same id on the resulting state fails
with the not-found error. -/
theorem C4_deliver_exactly_once (s : St) (entry : ReadyItem) (did : Nat)
    (hnd : (s.ready.map (·.id)).Nodup) (hmem : entry ∈ s.ready) :
    downloadReadyItem s entry.id (.ok did) =
      ([{ s with ready := removeFirst (fun e => decide (e.id = entry.id)) s.ready }],
       .ok { state := { s with
               ready := removeFirst (fun e => decide (e.id = entry.id)) s.ready },
             content := entry.markdown, filename := entry.filename,
             downloadId := did }) ∧
    ∀ dl2 : Except String Nat,
      downloadReadyItem
        { s with ready := removeFirst (fun e => decide (e.id = entry.id)) s.ready }
        entry.id dl2 = ([], .error "Download not found") := by
  have hfind : s.ready.find? (fun e => decide (e.id = entry.id)) = some entry :=
    find?_eq_of_mem_nodup hnd hmem
  constructor
  · simp [downloadReadyItem, hfind]
  · intro dl2
    have hnone : (removeFirst (fun e => decide (e.id = entry.id)) s.ready).find?
        (fun e => decide (e.id = entry.id)) = none := by
      rw [List.find?_eq_none]
      intro x hx
      have hxid := removeFirst_removes_key (g := fun e => e.id) (c := entry.id) hnd x hx
      simp [hxid]
    simp [downloadReadyItem, hnone]

/-- C4 witness: delivering the fixture ready item once succeeds and removes
it; the second delivery fails with the not-found error. -/
theorem C4_deliver_exactly_once_witness :
    downloadReadyItem stFixR "r" (.ok 5) =
      ([{ stFixR with ready := removeFirst (fun e => decide (e.id = "r")) stFixR.ready }],
       .ok { state := { stFixR with
               ready := removeFirst (fun e => decide (e.id = "r")) stFixR.ready },
             content := "# Hello", filename := some "r.md", downloadId := 5 }) ∧
    ∀ dl2 : Except String Nat,
      downloadReadyItem
        { stFixR with ready := removeFirst (fun e => decide (e.id = "r")) stFixR.ready }
        "r" dl2 = ([], .error "Download not found") :=
  C4_deliver_exactly_once stFixR rdFix 5 (by decide) (by decide)

/-- C10: if chrome.downloads.download reports an error, downloadReadyItem
raises that error having performed no persisted write, so the ready entry
is retained unchanged and a later delivery of the same id still succeeds. -/
theorem C10_download_failure_keeps_entry (s : St) (id msg : String)
    (entry : ReadyItem)
    (hfind : s.ready.find? (fun e => decide (e.id = id)) = some entry) :
    downloadReadyItem s id (.error msg) = ([], .error msg) ∧
    ∀ did : Nat, (downloadReadyItem s id (.ok did)).2 =
      .ok { state := { s with
              ready := removeFirst (fun e => decide (e.id = id)) s.ready },
            content := entry.markdown, filename := entry.filename,
            downloadId := did } := by
  constructor
  · simp [downloadReadyItem, hfind]
  · intro did
    simp [downloadReadyItem, hfind]

/-- C10 witness: a blocked download of the fixture entry raises the
reported error with no write, and delivering afterwards still succeeds. -/
theorem C10_download_failure_witness :
    downloadReadyItem stFixR "r" (.error "blocked") = ([], .error "blocked") ∧
    ∀ did : Nat, (downloadReadyItem stFixR "r" (.ok did)).2 =
      .ok { state := { stFixR with
              ready := removeFirst (fun e => decide (e.id = "r")) stFixR.ready },
            content := rdFix.markdown, filename := rdFix.filename,
            downloadId := did } :=
  C10_download_failure_keeps_entry stFixR "r" "blocked" rdFix (by decide)

/-- C8 counterexample: on a 500 response whose body is valid JSON without a
detail field, buildError records `HTTP 500`, whereas the claimed preference
order (detail, else non-empty raw text, else HTTP status) records the raw
body text. -/
theorem C8_counterexample :
    buildError respNoDetail = "HTTP 500" ∧
    claimErrorDetail respNoDetail = "\x7b\"message\": \"boom\"\x7d" ∧
    buildError respNoDetail ≠ claimErrorDetail respNoDetail := by
  refine ⟨rfl, rfl, ?_⟩
  decide

/-- C8 amended: the recorded error prefers the truthy detail field of a
body that parses as JSON; the raw-text fallback applies only when the body
fails to parse as JSON (and the text is non-empty); in every other case —
parse failure with empty text, or a parsed body whose detail is absent or
empty — the message is `HTTP <status>`. -/
theorem C8_amended_error_preference (r : HttpResponse) :
    (∀ d, r.jsonDetail = some (some d) → d ≠ "" → buildError r = d) ∧
    (r.jsonDetail = none → r.text ≠ "" → buildError r = r.text) ∧
    (r.jsonDetail = none → r.text = "" → buildError r = httpMsg r.status) ∧
    (r.jsonDetail = some none → buildError r = httpMsg r.status) ∧
    (∀ d, r.jsonDetail = some (some d) → d = "" → buildError r = httpMsg r.status) := by
  refine ⟨?_, ?_, ?_, ?_, ?_⟩ <;> intros <;> simp_all [buildError]

/-- C8 amended witness: a structured detail field wins at a concrete
response. -/
theorem C8_amended_witness : buildError respDetail = "bad url" :=
  (C8_amended_error_preference respDetail).1 "bad url" rfl (by decide)

/-- C9 counterexample: a submission run hitting a transient (non-404)
failure issues exactly one request and performs no backoff wait — in
particular it never produces the wait sequence 3000, 5000 that the claimed
linear backoff policy prescribes for two consecutive transient failures —
and the item is not retried: the run ends immediately in the extracted
error. -/
theorem C9_counterexample :
    fetchMarkdownRun respTransient =
      ({ posts := 1, waits := [] }, .error "upstream busy") ∧
    (fetchMarkdownRun respTransient).1.waits ≠ [3000, 5000] := by
  constructor
  · rfl
  · decide

/-- C9 amended: the code has no polling and no backoff — every submission
run issues exactly one request to the conversion endpoint and performs no
timed wait (so its empty wait sequence is trivially non-decreasing), and a
non-success response is never retried: the run ends at once in the error
extracted by buildError. -/
theorem C9_amended_no_backoff (r : HttpResponse) :
    (fetchMarkdownRun r).1.posts = 1 ∧
    (fetchMarkdownRun r).1.waits = [] ∧
    List.Chain' (· ≤ ·) (fetchMarkdownRun r).1.waits ∧
    (r.isOk = false →
      fetchMarkdownRun r = ({ posts := 1, waits := [] }, .error (buildError r))) ∧
    (r.isOk = true →
      fetchMarkdownRun r = ({ posts := 1, waits := [] }, .ok r.text)) := by
  refine ⟨rfl, rfl, by simp [fetchMarkdownRun], ?_, ?_⟩
  · intro h
    simp [fetchMarkdownRun, h]
  · intro h
    simp [fetchMarkdownRun, h]

/-- C9 amended witness: the transient-failure fixture makes one request, no
waits, and ends in the extracted error. -/
theorem C9_amended_witness :
    fetchMarkdownRun respTransient =
      ({ posts := 1, waits := [] }, .error (buildError respTransient)) :=
  (C9_amended_no_backoff respTransient).2.2.2.1 (by decide)

/-- C5 counterexample: retrying an errored item that carries a recorded job
association resets its status and clears its error, but leaves jobId and
jobStatus exactly as they were — they are not cleared as claimed. -/
theorem C5_counterexample :
    retryItem stFixJ "j" =
      .ok { state := { queue := [{ itFixJ with status := .pending, error := none }],
                       ready := [] },
            drainTriggered := true } ∧
    ({ itFixJ with status := .pending, error := none } : QueueItem).jobId = some "j1" ∧
    ({ itFixJ with status := .pending, error := none } : QueueItem).jobStatus =
      some "queued" := by
  refine ⟨rfl, rfl, rfl⟩

/-- C5 amended: retryItem on a state whose queue holds an item with the
given id — of any status, not only 'error' — succeeds, sets that item's
status to 'pending' and clears its error field only (jobId and jobStatus
are left untouched), triggers the drain loop, and is idempotent; it fails
with 'Queue item not found' when no such item exists. -/
theorem C5_amended_retry (s : St) (id : String)
    (hnd : (s.queue.map (·.id)).Nodup) :
    ((∀ q ∈ s.queue, q.id ≠ id) → retryItem s id = .error "Queue item not found") ∧
    (∀ q ∈ s.queue, q.id = id →
      ∃ r : RetryOk, retryItem s id = .ok r ∧ r.drainTriggered = true ∧
        r.state.ready = s.ready ∧
        r.state.queue = updateFirst (fun e => decide (e.id = id)) retryReset s.queue ∧
        retryReset q ∈ r.state.queue ∧
        (retryReset q).jobId = q.jobId ∧ (retryReset q).jobStatus = q.jobStatus ∧
        (retryReset q).status = .pending ∧ (retryReset q).error = none ∧
        retryItem r.state id = .ok r) := by
  constructor
  · intro hnone
    have hfind : s.queue.find? (fun e => decide (e.id = id)) = none := by
      rw [List.find?_eq_none]
      intro x hx
      simp [hnone x hx]
    simp [retryItem, hfind]
  · intro q hq hid
    subst hid
    have hfind : s.queue.find? (fun e => decide (e.id = q.id)) = some q :=
      find?_eq_of_mem_nodup hnd hq
    rcases find?_split hfind with ⟨l₁, l₂, hsq, h₁, hpq⟩
    have hpq' : (fun e : QueueItem => decide (e.id = q.id)) (retryReset q) = true := by
      simp [retryReset]
    refine ⟨⟨⟨updateFirst (fun e => decide (e.id = q.id)) retryReset s.queue, s.ready⟩, true⟩,
      ?_, rfl, rfl, rfl, ?_, rfl, rfl, rfl, rfl, ?_⟩
    · simp [retryItem, hfind]
    · rw [hsq, updateFirst_append_split h₁ hpq]
      exact List.mem_append_right _ (List.mem_cons_self _ _)
    · have hq' : updateFirst (fun e => decide (e.id = q.id)) retryReset s.queue
          = l₁ ++ retryReset q :: l₂ := by
        rw [hsq, updateFirst_append_split h₁ hpq]
      have hfind' : (l₁ ++ retryReset q :: l₂).find?
          (fun e => decide (e.id = q.id)) = some (retryReset q) :=
        find?_append_of_prefix_neg h₁ hpq'
      have hup' : updateFirst (fun e => decide (e.id = q.id)) retryReset
          (l₁ ++ retryReset q :: l₂) = l₁ ++ retryReset (retryReset q) :: l₂ :=
        updateFirst_append_split h₁ hpq'
      have hrr : retryReset (retryReset q) = retryReset q := rfl
      simp only [retryItem, hq', hfind', hup', hrr]

/-- C5 amended witness: retrying the errored fixture item resets status and
error, keeps its job association, and is idempotent. -/
theorem C5_amended_witness :
    ∃ r : RetryOk, retryItem stFixJ "j" = .ok r ∧ r.drainTriggered = true ∧
      r.state.ready = stFixJ.ready ∧
      r.state.queue = updateFirst (fun e => decide (e.id = "j")) retryReset stFixJ.queue ∧
      retryReset itFixJ ∈ r.state.queue ∧
      (retryReset itFixJ).jobId = itFixJ.jobId ∧
      (retryReset itFixJ).jobStatus = itFixJ.jobStatus ∧
      (retryReset itFixJ).status = .pending ∧ (retryReset itFixJ).error = none ∧
      retryItem r.state "j" = .ok r :=
  (C5_amended_retry stFixJ "j" (by decide)).2 itFixJ (by decide) rfl

/-- C6: a conversion task that completes after its queue item was removed
finds no matching entry and leaves the persisted state untouched — no
ready entry is appended and no error status is recorded on any item. -/
theorem C6_completion_after_remove (s : St) (it : QueueItem)
    (res : Except String String) (now : Nat)
    (hnd : (s.queue.map (·.id)).Nodup) (s' : St)
    (hrm : removeQueueItem s it.id = .ok s') :
    completeFetch s' it res now = s' := by
  unfold removeQueueItem at hrm
  cases hfind : s.queue.find? (fun e => decide (e.id = it.id)) with
  | none => rw [hfind] at hrm; simp at hrm
  | some q =>
    rw [hfind] at hrm
    simp only [Except.ok.injEq] at hrm
    subst hrm
    have hnone : (removeFirst (fun e => decide (e.id = it.id)) s.queue).find?
        (fun e => decide (e.id = it.id)) = none := by
      rw [List.find?_eq_none]
      intro x hx
      have hxid := removeFirst_removes_key (g := fun e => e.id) (c := it.id) hnd x hx
      simp [hxid]
    cases res with
    | ok md => simp [completeFetch, finishSuccess, hnone]
    | error msg => simp [completeFetch, finishFailure, hnone]

/-- C6 witness: completing the fixture item's conversion after its removal
changes nothing. -/
theorem C6_completion_after_remove_witness :
    completeFetch { queue := [], ready := [] } itFixB (.ok "# Hello") 9 =
      { queue := [], ready := [] } :=
  C6_completion_after_remove stFixB itFixB (.ok "# Hello") 9 (by decide)
    { queue := [], ready := [] } rfl

lemma activeCount_set {sys : Sys} {i : Nat} {t : Task}
    (ht : sys.tasks[i]? = some t) (t' : Task) :
    ((sys.tasks.set i t').filter inLoopTask).length + (if inLoopTask t then 1 else 0)
      = (sys.tasks.filter inLoopTask).length + (if inLoopTask t' then 1 else 0) :=
  length_filter_set ht t' inLoopTask

lemma flag_true_of_inloop {sys : Sys} (h : Inv sys) {t : Task}
    (hmem : t ∈ sys.tasks) (hL : inLoopTask t = true) : sys.flag = true := by
  have hf : t ∈ sys.tasks.filter inLoopTask := List.mem_filter.mpr ⟨hmem, hL⟩
  have hpos : 0 < activeCount sys :=
    List.length_pos.mpr (List.ne_nil_of_mem hf)
  cases hfl : sys.flag with
  | true => rfl
  | false =>
    rw [h.count_flag, hfl] at hpos
    simp at hpos

lemma pickPending_some {s : St} {q' : QueueItem} {s' : St}
    (h : pickPending s = some (q', s')) :
    ∃ q, s.queue.find? (fun x => decide (x.status = .pending)) = some q ∧
      q' = markProcessing q ∧ s' = pickMark s := by
  unfold pickPending at h
  cases hfind : s.queue.find? (fun x => decide (x.status = .pending)) with
  | none => rw [hfind] at h; simp at h
  | some q =>
    rw [hfind] at h
    simp only [Option.some.injEq, Prod.mk.injEq] at h
    exact ⟨q, rfl, h.1.symm, h.2.symm⟩

lemma mem_completeFetch {s : St} {it : QueueItem} {res : Except String String}
    {now : Nat} {x : QueueItem}
    (hx : x ∈ (completeFetch s it res now).queue) :
    x ∈ s.queue ∨ x.status = Status.error := by
  cases res with
  | ok md =>
    simp only [completeFetch, finishSuccess] at hx
    cases hfind : s.queue.find? (fun q => decide (q.id = it.id)) with
    | none => rw [hfind] at hx; exact Or.inl hx
    | some q =>
      rw [hfind] at hx
      exact Or.inl ((removeFirst_sublist s.queue).subset hx)
  | error msg =>
    simp only [completeFetch, finishFailure] at hx
    cases hfind : s.queue.find? (fun q => decide (q.id = it.id)) with
    | none => rw [hfind] at hx; exact Or.inl hx
    | some q =>
      rw [hfind] at hx
      rcases mem_updateFirst hx with hold | ⟨a, _, _, rfl⟩
      · exact Or.inl hold
      · exact Or.inr rfl

lemma completeFetch_queue_nodup {s : St} {it : QueueItem}
    {res : Except String String} {now : Nat}
    (h : (QueueIds s).Nodup) :
    (QueueIds (completeFetch s it res now)).Nodup := by
  cases res with
  | ok md =>
    cases hfind : s.queue.find? (fun q => decide (q.id = it.id)) with
    | none => simpa [completeFetch, finishSuccess, hfind] using h
    | some q =>
      have hsub : List.Sublist (removeFirst (fun q => decide (q.id = it.id)) s.queue)
          s.queue := removeFirst_sublist s.queue
      have h' : (s.queue.map (·.id)).Nodup := h
      have hres := List.Nodup.sublist (hsub.map (·.id)) h'
      simpa [completeFetch, finishSuccess, hfind, QueueIds] using hres
  | error msg =>
    cases hfind : s.queue.find? (fun q => decide (q.id = it.id)) with
    | none => simpa [completeFetch, finishFailure, hfind] using h
    | some q =>
      have hmap := updateFirst_map_of_fix (g := fun x : QueueItem => x.id)
        (p := fun q => decide (q.id = it.id)) (f := markError msg)
        (fun a _ => rfl) s.queue
      simpa [completeFetch, finishFailure, hfind, QueueIds, hmap] using h

lemma inLoop_retBounced : inLoopTask Task.retBounced = false := rfl

lemma inLoop_retDone : inLoopTask Task.retDone = false := rfl

lemma inLoop_atPick : inLoopTask Task.atPick = true := rfl

lemma inLoop_atFinally : inLoopTask Task.atFinally = false := rfl

lemma inLoop_atFetch (it : QueueItem) : inLoopTask (Task.atFetch it) = true := rfl

lemma inv_invoke {sys : Sys} (h : Inv sys) : Inv (invokeDrain sys) := by
  cases hfl : sys.flag with
  | true =>
    simp only [invokeDrain, hfl, if_true]
    refine ⟨?_, h.queue_nodup, h.sub_nodup, h.sub_not_pending, ?_⟩
    · have hcf := h.count_flag
      rw [hfl] at hcf
      simp only [activeCount] at hcf
      simp only [if_true] at hcf
      simp [activeCount, List.filter_append, List.filter_cons, List.filter_nil,
        inLoop_retBounced, hfl, hcf]
    · intro it2 hit2
      rcases List.mem_append.mp hit2 with hold | hnew
      · exact h.fetch_sub it2 hold
      · simp at hnew
  | false =>
    simp only [invokeDrain, hfl]
    simp only [Bool.false_eq_true, if_false]
    refine ⟨?_, h.queue_nodup, h.sub_nodup, h.sub_not_pending, ?_⟩
    · have hcf := h.count_flag
      rw [hfl] at hcf
      simp only [Bool.false_eq_true, if_false] at hcf
      simp only [activeCount] at hcf ⊢
      simp only [List.filter_append, List.filter_cons, List.filter_nil,
        inLoop_atPick, if_true, List.length_append]
      simp [hcf]
    · intro it2 hit2
      rcases List.mem_append.mp hit2 with hold | hnew
      · exact h.fetch_sub it2 hold
      · simp at hnew

lemma inv_markDone {sys : Sys} (h : Inv sys) {i : Nat} {t : Task}
    (ht : sys.tasks[i]? = some t) (hL : inLoopTask t = false) :
    Inv { sys with tasks := sys.tasks.set i Task.retDone } := by
  refine ⟨?_, h.queue_nodup, h.sub_nodup, h.sub_not_pending, ?_⟩
  · have hc := activeCount_set ht Task.retDone
    simp only [hL, inLoop_retDone, Bool.false_eq_true, if_false, Nat.add_zero] at hc
    have hcf := h.count_flag
    simp only [activeCount] at hcf ⊢
    rw [hc]
    exact hcf
  · intro it2 hit2
    rcases List.mem_or_eq_of_mem_set hit2 with hold | heq
    · exact h.fetch_sub it2 hold
    · simp at heq

lemma inv_run (env : Env) {sys : Sys} (h : Inv sys) (i : Nat) :
    Inv (runTask env sys i) := by
  cases ht : sys.tasks[i]? with
  | none => simpa [runTask, ht] using h
  | some t =>
    cases t with
    | retBounced => simpa [runTask, ht] using h
    | retDone => simpa [runTask, ht] using h
    | atFinally =>
      by_cases hpend : sys.store.queue.any (fun q => decide (q.status = .pending)) = true
      · simp only [runTask, ht, hpend, if_true]
        exact inv_invoke (inv_markDone h ht rfl)
      · simp only [runTask, ht, hpend]
        simp only [Bool.false_eq_true, if_false]
        exact inv_markDone h ht rfl
    | atPick =>
      have hmemT : Task.atPick ∈ sys.tasks := getElem?_mem_list ht
      have hflag : sys.flag = true := flag_true_of_inloop h hmemT rfl
      cases hpick : pickPending sys.store with
      | none =>
        simp only [runTask, ht, hpick]
        have hc := activeCount_set ht Task.atFinally
        simp only [inLoop_atPick, inLoop_atFinally, if_true, Bool.false_eq_true,
          if_false, Nat.add_zero] at hc
        have hcount := h.count_flag
        rw [hflag, if_pos rfl] at hcount
        refine ⟨?_, h.queue_nodup, h.sub_nodup, h.sub_not_pending, ?_⟩
        · simp only [activeCount] at hcount ⊢
          simp only [Bool.false_eq_true, if_false]
          omega
        · intro it2 hit2
          rcases List.mem_or_eq_of_mem_set hit2 with hold | heq
          · exact h.fetch_sub it2 hold
          · simp at heq
      | some pr =>
        rcases pr with ⟨q', s'⟩
        rcases pickPending_some hpick with ⟨q, hfind, rfl, rfl⟩
        have hqmem : q ∈ sys.store.queue := List.mem_of_find?_eq_some hfind
        have hqpend : q.status = .pending := by
          simpa using List.find?_some hfind
        have hnotsub : q.id ∉ sys.submitted := fun hin =>
          h.sub_not_pending q.id hin q hqmem rfl hqpend
        rcases find?_split hfind with ⟨l₁, l₂, hsq, h₁, _⟩
        have hup : (pickMark sys.store).queue = l₁ ++ markProcessing q :: l₂ := by
          simp only [pickMark]
          rw [hsq, updateFirst_append_split h₁ (by simp [hqpend])]
        have hqid_not : q.id ∉ l₁.map (·.id) ++ l₂.map (·.id) := by
          have hn := h.queue_nodup
          rw [QueueIds, hsq] at hn
          simp only [List.map_append, List.map_cons] at hn
          have hmid := List.nodup_middle.mp hn
          exact (List.nodup_cons.mp hmid).1
        simp only [runTask, ht, hpick]
        refine ⟨?_, ?_, ?_, ?_, ?_⟩
        · have hc := activeCount_set ht (Task.atFetch (markProcessing q))
          simp only [inLoop_atPick, inLoop_atFetch, if_true] at hc
          have hc' : ((sys.tasks.set i (Task.atFetch (markProcessing q))).filter
              inLoopTask).length = (sys.tasks.filter inLoopTask).length := by omega
          have hcf := h.count_flag
          simp only [activeCount] at hcf ⊢
          rw [hc']
          exact hcf
        · have hmap := updateFirst_map_of_fix (g := fun x : QueueItem => x.id)
            (p := fun x => decide (x.status = .pending)) (f := markProcessing)
            (fun a _ => rfl) sys.store.queue
          have hn := h.queue_nodup
          simp only [QueueIds] at hn ⊢
          simpa [pickMark, hmap] using hn
        · rw [List.nodup_append]
          refine ⟨h.sub_nodup, List.nodup_singleton _, ?_⟩
          intro x hx hx'
          simp only [List.mem_singleton] at hx'
          subst hx'
          exact hnotsub hx
        · intro idv hid x hx hxid
          simp only [hup] at hx
          rcases List.mem_append.mp hx with hx1 | hx2
          · rcases List.mem_append.mp hid with hidold | hidnew
            · exact h.sub_not_pending idv hidold x
                (by rw [hsq]; exact List.mem_append_left _ hx1) hxid
            · simp only [List.mem_singleton] at hidnew
              subst hidnew
              exfalso
              refine hqid_not ?_
              have hmm : x.id ∈ l₁.map (·.id) := List.mem_map_of_mem _ hx1
              rw [hxid] at hmm
              exact List.mem_append_left _ hmm
          · rcases List.mem_cons.mp hx2 with rfl | hx3
            · simp [markProcessing]
            · rcases List.mem_append.mp hid with hidold | hidnew
              · refine h.sub_not_pending idv hidold x ?_ hxid
                rw [hsq]
                exact List.mem_append_right _ (List.mem_cons_of_mem _ hx3)
              · simp only [List.mem_singleton] at hidnew
                subst hidnew
                exfalso
                refine hqid_not ?_
                have hmm : x.id ∈ l₂.map (·.id) := List.mem_map_of_mem _ hx3
                rw [hxid] at hmm
                exact List.mem_append_right _ hmm
        · intro it2 hit2
          simp only at hit2
          rcases List.mem_or_eq_of_mem_set hit2 with hold | heq
          · exact List.mem_append_left _ (h.fetch_sub it2 hold)
          · simp only [Task.atFetch.injEq] at heq
            subst heq
            exact List.mem_append_right _ (by simp [markProcessing])
    | atFetch it2 =>
      simp only [runTask, ht]
      refine ⟨?_, ?_, h.sub_nodup, ?_, ?_⟩
      · have hc := activeCount_set ht Task.atPick
        simp only [inLoop_atPick, inLoop_atFetch, if_true] at hc
        have hc' : ((sys.tasks.set i Task.atPick).filter inLoopTask).length
            = (sys.tasks.filter inLoopTask).length := by omega
        have hcf := h.count_flag
        simp only [activeCount] at hcf ⊢
        rw [hc']
        exact hcf
      · exact completeFetch_queue_nodup h.queue_nodup
      · intro idv hid x hx hxid
        rcases mem_completeFetch hx with hold | herr
        · exact h.sub_not_pending idv hid x hold hxid
        · rw [herr]
          intro hcontra
          cases hcontra
      · intro it3 hit3
        rcases List.mem_or_eq_of_mem_set hit3 with hold | heq
        · exact h.fetch_sub it3 hold
        · simp at heq

lemma invokeDrain_store (sys : Sys) : (invokeDrain sys).store = sys.store := by
  unfold invokeDrain
  by_cases hfl : sys.flag <;> simp [hfl]

lemma invokeDrain_submitted (sys : Sys) :
    (invokeDrain sys).submitted = sys.submitted := by
  unfold invokeDrain
  by_cases hfl : sys.flag <;> simp [hfl]

lemma mem_completeFetch_of_ne {s : St} {it it' : QueueItem}
    {res : Except String String} {now : Nat}
    (hmem : it' ∈ s.queue) (hne : it'.id ≠ it.id) :
    it' ∈ (completeFetch s it res now).queue := by
  have hp : (decide (it'.id = it.id)) = false := by simp [hne]
  cases res with
  | ok md =>
    cases hfind : s.queue.find? (fun q => decide (q.id = it.id)) with
    | none => simpa [completeFetch, finishSuccess, hfind] using hmem
    | some q =>
      have hmm := mem_removeFirst_of_neg (p := fun q : QueueItem => decide (q.id = it.id)) hmem hp
      simpa [completeFetch, finishSuccess, hfind] using hmm
  | error msg =>
    cases hfind : s.queue.find? (fun q => decide (q.id = it.id)) with
    | none => simpa [completeFetch, finishFailure, hfind] using hmem
    | some q =>
      have hmm := mem_updateFirst_of_neg (p := fun q : QueueItem => decide (q.id = it.id)) (f := markError msg) hmem hp
      simpa [completeFetch, finishFailure, hfind] using hmm

lemma keeps_step (env : Env) {sys : Sys} {it : QueueItem} (a : Act)
    (h : Inv sys) (hst : it.status ≠ .pending)
    (hmem : it ∈ sys.store.queue) (hsub : it.id ∉ sys.submitted) :
    it ∈ (stepSys env sys a).store.queue ∧
      it.id ∉ (stepSys env sys a).submitted := by
  cases a with
  | invoke =>
    simp only [stepSys, invokeDrain_store, invokeDrain_submitted]
    exact ⟨hmem, hsub⟩
  | run i =>
    cases ht : sys.tasks[i]? with
    | none =>
      simp only [runTask, stepSys, ht]
      exact ⟨hmem, hsub⟩
    | some t =>
      cases t with
      | retBounced =>
        simp only [runTask, stepSys, ht]
        exact ⟨hmem, hsub⟩
      | retDone =>
        simp only [runTask, stepSys, ht]
        exact ⟨hmem, hsub⟩
      | atFinally =>
        by_cases hpend : sys.store.queue.any (fun q => decide (q.status = .pending)) = true
        · simp only [runTask, stepSys, ht, hpend, if_true,
            invokeDrain_store, invokeDrain_submitted]
          exact ⟨hmem, hsub⟩
        · simp only [runTask, stepSys, ht, hpend]
          simp only [Bool.false_eq_true, if_false]
          exact ⟨hmem, hsub⟩
      | atPick =>
        cases hpick : pickPending sys.store with
        | none =>
          simp only [runTask, stepSys, ht, hpick]
          exact ⟨hmem, hsub⟩
        | some pr =>
          rcases pr with ⟨q', s'⟩
          rcases pickPending_some hpick with ⟨q, hfind, rfl, rfl⟩
          have hqmem : q ∈ sys.store.queue := List.mem_of_find?_eq_some hfind
          have hqpend : q.status = .pending := by
            simpa using List.find?_some hfind
          have hqne : q.id ≠ it.id := by
            intro he
            have h' : (sys.store.queue.map (·.id)).Nodup := h.queue_nodup
            have heq := List.inj_on_of_nodup_map h' hqmem hmem he
            rw [heq] at hqpend
            exact hst hqpend
          have hpit : (decide (it.status = Status.pending)) = false := by
            simp [hst]
          constructor
          · simp only [runTask, stepSys, ht, hpick, pickMark]
            exact mem_updateFirst_of_neg (p := fun x : QueueItem => decide (x.status = Status.pending)) hmem hpit
          · simp only [runTask, stepSys, ht, hpick]
            intro hin
            rcases List.mem_append.mp hin with h1 | h2
            · exact hsub h1
            · simp only [markProcessing, List.mem_singleton] at h2
              exact hqne h2.symm
      | atFetch it2 =>
        have hit2mem : Task.atFetch it2 ∈ sys.tasks := getElem?_mem_list ht
        have hit2sub : it2.id ∈ sys.submitted := h.fetch_sub it2 hit2mem
        have hne : it.id ≠ it2.id := fun he => hsub (he ▸ hit2sub)
        constructor
        · simp only [runTask, stepSys, ht]
          exact mem_completeFetch_of_ne hmem hne
        · simp only [runTask, stepSys, ht]
          exact hsub

lemma inv_step (env : Env) {sys : Sys} (h : Inv sys) (a : Act) :
    Inv (stepSys env sys a) := by
  cases a with
  | invoke => exact inv_invoke h
  | run i => exact inv_run env h i

lemma inv_exec (env : Env) {sys : Sys} (h : Inv sys) (acts : List Act) :
    Inv (execSys env sys acts) := by
  induction acts generalizing sys with
  | nil => exact h
  | cons a rest ih => exact ih (inv_step env h a)

lemma keeps_exec (env : Env) {sys : Sys} {it : QueueItem} (acts : List Act)
    (h : Inv sys) (hst : it.status ≠ .pending)
    (hmem : it ∈ sys.store.queue) (hsub : it.id ∉ sys.submitted) :
    it ∈ (execSys env sys acts).store.queue ∧
      it.id ∉ (execSys env sys acts).submitted := by
  induction acts generalizing sys with
  | nil => exact ⟨hmem, hsub⟩
  | cons a rest ih =>
    have hk := keeps_step env a h hst hmem hsub
    exact ih (inv_step env h a) hk.1 hk.2

lemma inv_init {st : St} (hnd : (QueueIds st).Nodup) : Inv (initSys st) := by
  refine ⟨?_, ?_, ?_, ?_, ?_⟩ <;> simp [initSys, activeCount]
  exact hnd

/-- C2: from a process start on any persisted store, under every
interleaving of processQueue invocations and task resumptions, at most one
drain loop body is ever active, no queue item is ever dispatched to the
conversion endpoint twice, and an invocation arriving while the guard is
held returns immediately — the store, guard and dispatch log are unchanged,
only the bounced call is recorded. -/
theorem C2_drain_single_flight (env : Env) (st : St) (acts : List Act)
    (hnd : (QueueIds st).Nodup) :
    activeCount (execSys env (initSys st) acts) ≤ 1 ∧
    (execSys env (initSys st) acts).submitted.Nodup ∧
    ((execSys env (initSys st) acts).flag = true →
      stepSys env (execSys env (initSys st) acts) Act.invoke =
        { execSys env (initSys st) acts with
            tasks := (execSys env (initSys st) acts).tasks ++ [Task.retBounced] }) := by
  have hinv := inv_exec env (inv_init hnd) acts
  refine ⟨?_, hinv.sub_nodup, ?_⟩
  · rw [hinv.count_flag]
    by_cases hf : (execSys env (initSys st) acts).flag <;> simp [hf]
  · intro hf
    simp [stepSys, invokeDrain, hf]

/-- C2 witness: two invocations on the pending fixture store. -/
theorem C2_drain_single_flight_witness :
    activeCount (execSys envFix (initSys stFixB) [Act.invoke, Act.invoke]) ≤ 1 ∧
    (execSys envFix (initSys stFixB) [Act.invoke, Act.invoke]).submitted.Nodup ∧
    ((execSys envFix (initSys stFixB) [Act.invoke, Act.invoke]).flag = true →
      stepSys envFix (execSys envFix (initSys stFixB) [Act.invoke, Act.invoke]) Act.invoke =
        { execSys envFix (initSys stFixB) [Act.invoke, Act.invoke] with
            tasks := (execSys envFix (initSys stFixB) [Act.invoke, Act.invoke]).tasks
              ++ [Task.retBounced] }) :=
  C2_drain_single_flight envFix stFixB [Act.invoke, Act.invoke] (by decide)

/-- C1 counterexample: a fresh process start on a persisted store whose only
item is 'processing' with a recorded jobId: entering the drain loop and
running it to completion attaches no task for that item — the claim demands
exactly one — dispatches nothing, and leaves the item 'processing'
unchanged. -/
theorem C1_counterexample :
    (execSys envFix (initSys stFixA) [Act.invoke, Act.run 0, Act.run 0]).submitted = [] ∧
    (execSys envFix (initSys stFixA) [Act.invoke, Act.run 0, Act.run 0]).store = stFixA ∧
    (execSys envFix (initSys stFixA) [Act.invoke, Act.run 0, Act.run 0]).tasks
      = [Task.retDone] ∧
    ¬ ((execSys envFix (initSys stFixA)
        [Act.invoke, Act.run 0, Act.run 0]).submitted.count itFixA.id = 1) := by
  refine ⟨rfl, rfl, rfl, by decide⟩

/-- C1 amended: entering the drain loop — at process start or any later
point, under arbitrarily repeated invocation — never attaches a task for a
queue item already 'processing': the item is never dispatched, no suspended
conversion for its id exists at any reachable point, and it stays in the
persisted queue untouched.  In-flight work recorded in durable state is not
recovered across a restart. -/
theorem C1_amended_no_resume (env : Env) (st : St) (acts : List Act)
    (it : QueueItem) (hnd : (QueueIds st).Nodup)
    (hmem : it ∈ st.queue) (hst : it.status = .processing) :
    it ∈ (execSys env (initSys st) acts).store.queue ∧
    it.id ∉ (execSys env (initSys st) acts).submitted ∧
    ∀ it2 : QueueItem, Task.atFetch it2 ∈ (execSys env (initSys st) acts).tasks →
      it2.id ≠ it.id := by
  have hinv := inv_exec env (inv_init hnd) acts
  have hst' : it.status ≠ .pending := by
    rw [hst]
    intro hc
    cases hc
  have hk := keeps_exec env acts (inv_init hnd) hst'
    (by simpa [initSys] using hmem) (by simp [initSys])
  refine ⟨hk.1, hk.2, ?_⟩
  intro it2 hit2 he
  have hmem2 := hinv.fetch_sub it2 hit2
  rw [he] at hmem2
  exact hk.2 hmem2

/-- C1 amended witness: the fixture 'processing' item after a completed
drain pass from a process start. -/
theorem C1_amended_witness :
    itFixA ∈ (execSys envFix (initSys stFixA) [Act.invoke, Act.run 0]).store.queue ∧
    itFixA.id ∉ (execSys envFix (initSys stFixA) [Act.invoke, Act.run 0]).submitted ∧
    ∀ it2 : QueueItem,
      Task.atFetch it2 ∈ (execSys envFix (initSys stFixA) [Act.invoke, Act.run 0]).tasks →
        it2.id ≠ itFixA.id :=
  C1_amended_no_resume envFix stFixA [Act.invoke, Act.run 0] itFixA
    (by decide) (by decide) rfl

lemma uniqueIds_enqueue {s : St} {u : String} {fn : Option String}
    {fid : String} {now : Nat} {out : EnqueueOk}
    (h : UniqueIds s) (hfresh : fid ∉ allIds s)
    (henq : enqueueItem s (some u) fn fid now = .ok out) :
    UniqueIds out.state ∧ out.id = fid ∧
    (∀ x, x ∈ allIds out.state ↔ x = fid ∨ x ∈ allIds s) := by
  simp only [enqueueItem] at henq
  by_cases hu : u = ""
  · rw [if_pos hu] at henq
    simp at henq
  · rw [if_neg hu] at henq
    simp only [Except.ok.injEq] at henq
    subst henq
    have hshape : allIds { s with queue := s.queue ++ [mkQueueItem fid u fn now] }
        = s.queue.map (·.id) ++ fid :: s.ready.map (·.id) := by
      simp [allIds, mkQueueItem]
    have hperm : (s.queue.map (·.id) ++ fid :: s.ready.map (·.id)).Perm
        (fid :: allIds s) := List.perm_middle
    refine ⟨?_, rfl, ?_⟩
    · rw [UniqueIds, hshape, hperm.nodup_iff]
      exact List.nodup_cons.mpr ⟨hfresh, h⟩
    · intro x
      rw [hshape, hperm.mem_iff, List.mem_cons]

lemma enqueueSeq_spec (reqs : List EnqueueReq) : ∀ s : St,
    UniqueIds s → (reqs.map (·.freshId)).Nodup →
    (∀ r ∈ reqs, r.freshId ∉ allIds s) →
    UniqueIds (enqueueSeq s reqs).1 ∧
    List.Sublist (enqueueSeq s reqs).2 (reqs.map (·.freshId)) ∧
    (∀ x ∈ allIds (enqueueSeq s reqs).1, x ∈ allIds s ∨ x ∈ reqs.map (·.freshId)) := by
  induction reqs with
  | nil =>
    intro s h _ _
    exact ⟨h, by simp [enqueueSeq], fun x hx => Or.inl hx⟩
  | cons r rest ih =>
    intro s h hnd hfresh
    have hndr : (rest.map (·.freshId)).Nodup := (List.nodup_cons.mp hnd).2
    cases henq : enqueueItem s (some r.url) r.filename r.freshId r.now with
    | error e =>
      have hfr : ∀ r2 ∈ rest, r2.freshId ∉ allIds s :=
        fun r2 h2 => hfresh r2 (List.mem_cons_of_mem _ h2)
      have hrec := ih s h hndr hfr
      refine ⟨?_, ?_, ?_⟩
      · simpa [enqueueSeq, henq] using hrec.1
      · have hsub : List.Sublist (enqueueSeq s rest).2 (rest.map (·.freshId)) :=
          hrec.2.1
        have := List.sublist_cons_of_sublist r.freshId hsub
        simpa [enqueueSeq, henq] using this
      · intro x hx
        have hx' : x ∈ allIds (enqueueSeq s rest).1 := by
          simpa [enqueueSeq, henq] using hx
        rcases hrec.2.2 x hx' with h1 | h2
        · exact Or.inl h1
        · exact Or.inr (by simpa using Or.inr h2)
    | ok out =>
      have hfid : r.freshId ∉ allIds s := hfresh r (List.mem_cons_self _ _)
      rcases uniqueIds_enqueue h hfid henq with ⟨hU, hid, hmem⟩
      have hfr : ∀ r2 ∈ rest, r2.freshId ∉ allIds out.state := by
        intro r2 h2 hin
        rcases (hmem r2.freshId).mp hin with heq | hold
        · have : r.freshId ∈ rest.map (·.freshId) := by
            rw [← heq]
            exact List.mem_map_of_mem _ h2
          exact (List.nodup_cons.mp hnd).1 this
        · exact hfresh r2 (List.mem_cons_of_mem _ h2) hold
      have hrec := ih out.state hU hndr hfr
      refine ⟨?_, ?_, ?_⟩
      · simpa [enqueueSeq, henq] using hrec.1
      · have hsub : List.Sublist (out.id :: (enqueueSeq out.state rest).2)
            (r.freshId :: rest.map (·.freshId)) := by
          rw [hid]
          exact List.Sublist.cons₂ _ hrec.2.1
        simpa [enqueueSeq, henq] using hsub
      · intro x hx
        have hx' : x ∈ allIds (enqueueSeq out.state rest).1 := by
          simpa [enqueueSeq, henq] using hx
        rcases hrec.2.2 x hx' with h1 | h2
        · rcases (hmem x).mp h1 with heq | hold
          · exact Or.inr (by simp [heq])
          · exact Or.inl hold
        · exact Or.inr (by simpa using Or.inr h2)

lemma uniqueIds_retry {s : St} {id : String} {out : RetryOk}
    (h : UniqueIds s) (hr : retryItem s id = .ok out) : UniqueIds out.state := by
  unfold retryItem at hr
  cases hfind : s.queue.find? (fun e => decide (e.id = id)) with
  | none => rw [hfind] at hr; simp at hr
  | some q =>
    rw [hfind] at hr
    simp only [Except.ok.injEq] at hr
    subst hr
    have hmap := updateFirst_map_of_fix (g := fun x : QueueItem => x.id)
      (p := fun e => decide (e.id = id)) (f := retryReset) (fun a _ => rfl) s.queue
    simpa [UniqueIds, allIds, hmap] using h

lemma uniqueIds_remove {s : St} {id : String} {s' : St}
    (h : UniqueIds s) (hr : removeQueueItem s id = .ok s') : UniqueIds s' := by
  unfold removeQueueItem at hr
  cases hfind : s.queue.find? (fun e => decide (e.id = id)) with
  | none => rw [hfind] at hr; simp at hr
  | some q =>
    rw [hfind] at hr
    simp only [Except.ok.injEq] at hr
    subst hr
    have hq : List.Sublist ((removeFirst (fun e => decide (e.id = id)) s.queue).map (·.id))
        (s.queue.map (·.id)) := (removeFirst_sublist s.queue).map _
    have hsub : List.Sublist
        ((removeFirst (fun e => decide (e.id = id)) s.queue).map (·.id)
          ++ s.ready.map (·.id))
        (s.queue.map (·.id) ++ s.ready.map (·.id)) :=
      hq.append (List.Sublist.refl _)
    exact List.Nodup.sublist hsub h

lemma uniqueIds_removeReady {s : St} {id : String} {s' : St}
    (h : UniqueIds s) (hr : removeReadyItem s id = .ok s') : UniqueIds s' := by
  unfold removeReadyItem at hr
  cases hfind : s.ready.find? (fun e => decide (e.id = id)) with
  | none => rw [hfind] at hr; simp at hr
  | some q =>
    rw [hfind] at hr
    simp only [Except.ok.injEq] at hr
    subst hr
    have hq : List.Sublist ((removeFirst (fun e => decide (e.id = id)) s.ready).map (·.id))
        (s.ready.map (·.id)) := (removeFirst_sublist s.ready).map _
    have hsub : List.Sublist
        (s.queue.map (·.id)
          ++ (removeFirst (fun e => decide (e.id = id)) s.ready).map (·.id))
        (s.queue.map (·.id) ++ s.ready.map (·.id)) :=
      (List.Sublist.refl _).append hq
    exact List.Nodup.sublist hsub h

lemma uniqueIds_deliver {s : St} {id : String} (dl : Except String Nat)
    (h : UniqueIds s) :
    ∀ s' ∈ (downloadReadyItem s id dl).1, UniqueIds s' := by
  unfold downloadReadyItem
  cases hfind : s.ready.find? (fun e => decide (e.id = id)) with
  | none => simp
  | some q =>
    cases dl with
    | error msg => simp
    | ok did =>
      intro s' hs'
      simp only [List.mem_singleton] at hs'
      subst hs'
      have hq : List.Sublist
          ((removeFirst (fun e => decide (e.id = id)) s.ready).map (·.id))
          (s.ready.map (·.id)) := (removeFirst_sublist s.ready).map _
      have hsub : List.Sublist
          (s.queue.map (·.id)
            ++ (removeFirst (fun e => decide (e.id = id)) s.ready).map (·.id))
          (s.queue.map (·.id) ++ s.ready.map (·.id)) :=
        (List.Sublist.refl _).append hq
      exact List.Nodup.sublist hsub h

lemma uniqueIds_pick {s : St} (h : UniqueIds s) : UniqueIds (pickMark s) := by
  have hmap := updateFirst_map_of_fix (g := fun x : QueueItem => x.id)
    (p := fun x => decide (x.status = .pending)) (f := markProcessing)
    (fun a _ => rfl) s.queue
  simpa [UniqueIds, allIds, pickMark, hmap] using h

lemma uniqueIds_completeFetch {s : St} {it : QueueItem}
    {res : Except String String} {now : Nat}
    (h : UniqueIds s) : UniqueIds (completeFetch s it res now) := by
  cases res with
  | error msg =>
    cases hfind : s.queue.find? (fun q => decide (q.id = it.id)) with
    | none => simpa [completeFetch, finishFailure, hfind] using h
    | some q =>
      have hmap := updateFirst_map_of_fix (g := fun x : QueueItem => x.id)
        (p := fun q => decide (q.id = it.id)) (f := markError msg)
        (fun a _ => rfl) s.queue
      simpa [completeFetch, finishFailure, hfind, UniqueIds, allIds, hmap] using h
  | ok md =>
    cases hfind : s.queue.find? (fun q => decide (q.id = it.id)) with
    | none => simpa [completeFetch, finishSuccess, hfind] using h
    | some q =>
      rcases find?_split hfind with ⟨l₁, l₂, hsq, h₁, hpq⟩
      have hqid : q.id = it.id := by simpa using hpq
      have hrm : removeFirst (fun q2 => decide (q2.id = it.id)) s.queue = l₁ ++ l₂ := by
        rw [hsq, removeFirst_append_split h₁ hpq]
      have hold : UniqueIds s := h
      rw [UniqueIds, allIds, hsq] at hold
      simp only [List.map_append, List.map_cons] at hold
      have holdp : ((l₁.map (·.id) ++ q.id :: l₂.map (·.id))
          ++ s.ready.map (·.id)).Perm
          (q.id :: (l₁.map (·.id) ++ l₂.map (·.id) ++ s.ready.map (·.id))) := by
        simp [List.append_assoc]
      have hnodup : (q.id :: (l₁.map (·.id) ++ l₂.map (·.id)
          ++ s.ready.map (·.id))).Nodup := holdp.nodup_iff.mp hold
      have hnewp : ((l₁.map (·.id) ++ l₂.map (·.id))
          ++ (s.ready.map (·.id) ++ [q.id])).Perm
          (q.id :: (l₁.map (·.id) ++ l₂.map (·.id) ++ s.ready.map (·.id))) := by
        have he : (l₁.map (·.id) ++ l₂.map (·.id)) ++ (s.ready.map (·.id) ++ [q.id])
            = ((l₁.map (·.id) ++ l₂.map (·.id)) ++ s.ready.map (·.id)) ++ [q.id] :=
          (List.append_assoc _ _ _).symm
        rw [he]
        exact List.perm_append_singleton _ _
      have hres : ((l₁ ++ l₂).map (·.id)
          ++ (s.ready.map (·.id) ++ [q.id])).Nodup := by
        rw [List.map_append]
        exact hnewp.nodup_iff.mpr hnodup
      simp only [completeFetch, finishSuccess, hfind, UniqueIds, allIds]
      simp only [hrm, List.map_append, List.map_cons, List.map_nil]
      rw [← hqid]
      simpa [List.map_append] using hres

/-- C7: enqueue returns the freshly generated id of each call, so any call
sequence whose generated ids are pairwise distinct returns pairwise
distinct ids; and every operation of the worker — retry, remove, deliver,
removeReady, and both halves of the drain loop body — preserves uniqueness
of `id` across the union of the queue and ready lists.  createId is random
(crypto.randomUUID with a timestamp fallback), so its outputs are modelled
as an injected supply of fresh ids. -/
theorem C7_ids_unique (s0 : St) (reqs : List EnqueueReq)
    (h0 : UniqueIds s0) (hnd : (reqs.map (·.freshId)).Nodup)
    (hfresh : ∀ r ∈ reqs, r.freshId ∉ allIds s0) :
    (enqueueSeq s0 reqs).2.Nodup ∧ UniqueIds (enqueueSeq s0 reqs).1 ∧
    (∀ s : St, ∀ id : String, UniqueIds s →
      (∀ out, retryItem s id = .ok out → UniqueIds out.state) ∧
      (∀ s', removeQueueItem s id = .ok s' → UniqueIds s') ∧
      (∀ dl, ∀ s' ∈ (downloadReadyItem s id dl).1, UniqueIds s') ∧
      (∀ s', removeReadyItem s id = .ok s' → UniqueIds s')) ∧
    (∀ s : St, UniqueIds s → UniqueIds (pickMark s) ∧
      ∀ it res now, UniqueIds (completeFetch s it res now)) := by
  have hseq := enqueueSeq_spec reqs s0 h0 hnd hfresh
  refine ⟨List.Nodup.sublist hseq.2.1 hnd, hseq.1, ?_, ?_⟩
  · intro s id hU
    exact ⟨fun out hr => uniqueIds_retry hU hr,
      fun s' hr => uniqueIds_remove hU hr,
      fun dl s' hs' => uniqueIds_deliver dl hU s' hs',
      fun s' hr => uniqueIds_removeReady hU hr⟩
  · intro s hU
    exact ⟨uniqueIds_pick hU, fun it res now => uniqueIds_completeFetch hU⟩

/-- C7 witness: two enqueues with distinct generated ids on the ready
fixture store. -/
theorem C7_ids_unique_witness :
    (enqueueSeq stFixR
      [{ url := "https://example.com/1", filename := none, freshId := "x1", now := 1 },
       { url := "https://example.com/2", filename := none, freshId := "x2", now := 2 }]).2.Nodup ∧
    UniqueIds (enqueueSeq stFixR
      [{ url := "https://example.com/1", filename := none, freshId := "x1", now := 1 },
       { url := "https://example.com/2", filename := none, freshId := "x2", now := 2 }]).1 ∧
    (∀ s : St, ∀ id : String, UniqueIds s →
      (∀ out, retryItem s id = .ok out → UniqueIds out.state) ∧
      (∀ s', removeQueueItem s id = .ok s' → UniqueIds s') ∧
      (∀ dl, ∀ s' ∈ (downloadReadyItem s id dl).1, UniqueIds s') ∧
      (∀ s', removeReadyItem s id = .ok s' → UniqueIds s')) ∧
    (∀ s : St, UniqueIds s → UniqueIds (pickMark s) ∧
      ∀ it res now, UniqueIds (completeFetch s it res now)) :=
  C7_ids_unique stFixR
    [{ url := "https://example.com/1", filename := none, freshId := "x1", now := 1 },
     { url := "https://example.com/2", filename := none, freshId := "x2", now := 2 }]
    (show (allIds stFixR).Nodup by decide) (by decide)
    (show ∀ r ∈ ([{ url := "https://example.com/1", filename := none, freshId := "x1", now := 1 },
       { url := "https://example.com/2", filename := none, freshId := "x2", now := 2 }] : List EnqueueReq),
      r.freshId ∉ allIds stFixR by decide)

end MarkdownLoad
